import Mathlib

/-
Verification of the compaction-set predictor
(db/compaction/compaction_predictor.cc, db/compaction/compaction_predictor.h).

Shallow embedding conventions:
  - User keys are compared by the engine with a total order (Slice.compare,
    a memcmp-style byte-string order); the predictor only ever uses the
    comparison results, so keys are embedded as naturals with their order.
  - File identities are produced by std::to_string(fd.GetNumber()), which is
    injective on file numbers, so identities are embedded as the numbers
    themselves and std::set<std::string> as Finset Nat.
  - double values (compaction scores) are embedded as rationals; every score
    computation in the source is a ratio of such quantities.
  - The ledger std::map<std::string,int> is embedded as a function from
    identities to Option Nat (present with a counter, or absent).
  - VersionStorageInfo is an external read-only collaborator; it is embedded
    as a structure of the accessor functions the predictor calls.
-/

/-- FileMetaData as the predictor observes it: file number, user-key range
endpoints of smallest and largest, file size, and the being_compacted flag. -/
structure FileMeta where
  number : Nat
  smallest : Nat
  largest : Nat
  size : Nat
  being_compacted : Bool
deriving DecidableEq

/-- Read-only snapshot of VersionStorageInfo: the accessors used by
CompactionPredictor (num_levels, LevelFiles, CompactionScore, NumLevelBytes,
FilesByCompactionPri, NextCompactionIndex). NumLevelFiles is the length of
LevelFiles. -/
structure VStorage where
  num_levels : Nat
  levels : Nat → List FileMeta
  score : Nat → ℚ
  level_bytes : Nat → Nat
  files_by_compaction_pri : Nat → List Nat
  next_compaction_index : Nat → Nat

/-- NumLevelFiles(level). -/
def numLevelFiles (vs : VStorage) (level : Nat) : Nat :=
  (vs.levels level).length

/-- The threshold 0.8 of the cascading-overload checks, given as a reduced
fraction literal so that the kernel can evaluate comparisons against it
(proved equal to 4/5 below). -/
def q4_5 : ℚ := ⟨4, 5, by norm_num, by norm_num⟩

/-- The threshold 0.7 of CheckL1ToL2Compaction, given as a reduced fraction
literal so that the kernel can evaluate comparisons against it (proved equal
to 7/10 below). -/
def q7_10 : ℚ := ⟨7, 10, by norm_num, by norm_num⟩

/-- The closed-interval overlap test the source repeats at every site:
two ranges overlap iff NOT (b < c OR d < a) for ranges [a,b] and [c,d]. -/
def rangesOverlap (a b c d : Nat) : Bool :=
  !(decide (b < c) || decide (d < a))

/-- Union key range of a list of files, folded pairwise with min and max,
mirroring the linear scans at compaction_predictor.cc:221-245 and 347-358. -/
def unionRange (files : List FileMeta) : Option (Nat × Nat) :=
  files.foldl
    (fun acc f =>
      match acc with
      | none => some (f.smallest, f.largest)
      | some (lo, hi) => some (min lo f.smallest, max hi f.largest))
    none

/-- The merged [min,max] interval of the files of a level whose number lies in
a given identity set (used to state the clean-cut closure property). -/
def mergedRange (files : List FileMeta) (s : Finset Nat) : Option (Nat × Nat) :=
  unionRange (files.filter (fun f => decide (f.number ∈ s)))

/-- The prediction ledger predicted_files_ : identity to occurrence counter. -/
def Ledger : Type := Nat → Option Nat

/-- Erasure of one key from the ledger (std::map::erase). -/
def ledgerErase (m : Ledger) (k : Nat) : Ledger :=
  fun n => if n = k then none else m n

/-- The update predicted_files_[file]++ performed for every file of the
result at compaction_predictor.cc:186-190 (operator[] inserts 0 if absent,
then the counter is incremented). -/
def recordLedger (m : Ledger) (ids : Finset Nat) : Ledger :=
  fun n => if n ∈ ids then some ((m n).getD 0 + 1) else m n

/-- CompactionPredictor::RemoveCompactedFiles (compaction_predictor.cc:725-733):
for each given identity, erase its ledger entry when present, otherwise do
nothing. -/
def RemoveCompactedFiles (m : Ledger) (compacted_files : List Nat) : Ledger :=
  compacted_files.foldl
    (fun m f => if (m f).isSome then ledgerErase m f else m) m

/-- CompactionPredictor::RemoveIncorrectPredictedFiles
(compaction_predictor.cc:807-820): identical erase-if-present loop. -/
def RemoveIncorrectPredictedFiles (m : Ledger) (incorrect_files : List Nat) : Ledger :=
  incorrect_files.foldl
    (fun m f => if (m f).isSome then ledgerErase m f else m) m

/-- CompactionPredictor::CheckL1ToL2Compaction (compaction_predictor.cc:654-697):
L0 backlog may push an L1 to L2 compaction although Score(1) < 1.0. -/
def CheckL1ToL2Compaction (vs : VStorage) : Bool :=
  if vs.score 0 ≤ 1 then false
  else if 1 ≤ vs.score 1 then false
  else if q7_10 ≤ vs.score 1 then true
  else if 8 ≤ numLevelFiles vs 1 then true
  else if 0 < vs.level_bytes 2 ∧ 2 * vs.level_bytes 2 < vs.level_bytes 1 then true
  else false

/-- CompactionPredictor::CheckIntermediateLevelsBetween
(compaction_predictor.cc:412-419): every level strictly between target_level
and start_level must have score above 0.8. -/
def CheckIntermediateLevelsBetween (vs : VStorage) (start_level target_level : Nat) : Bool :=
  (List.range' (target_level + 1) (start_level - (target_level + 1))).all
    (fun m => decide (q4_5 < vs.score m))

/-- The search loop of compaction_predictor.cc:83-99: from level - 1 down to 0,
the first (nearest) higher level whose score exceeds 1.0. -/
def findTriggeringLevel (vs : VStorage) : Nat → Option Nat
  | 0 => none
  | h + 1 => if 1 < vs.score h then some h else findTriggeringLevel vs h

/-- The cascading-overload test inlined at compaction_predictor.cc:77-105:
the nearest higher level with score above 1.0 exists and every intermediate
level between it and the current level has score above 0.8. -/
def cascadeOk (vs : VStorage) (level : Nat) : Bool :=
  match findTriggeringLevel vs level with
  | none => false
  | some t =>
      (List.range' (t + 1) (level - (t + 1))).all
        (fun m => decide (q4_5 < vs.score m))

/-- The will_compact decision of compaction_predictor.cc:71-111 for a level
that the loop reaches: direct overload, cascading overload, or the special
L1 to L2 case. -/
def willCompact (vs : VStorage) (level : Nat) : Bool :=
  if 1 < vs.score level then true
  else if cascadeOk vs level then true
  else if level = 1 && CheckL1ToL2Compaction vs then true
  else false

/-- A level is treated as a compaction candidate by the selection loop of
PredictCompactionFiles when it is nonempty (compaction_predictor.cc:63) and
will_compact is decided true. -/
def treatedAsCandidate (vs : VStorage) (level : Nat) : Bool :=
  !(vs.levels level).isEmpty && willCompact vs level

/-- The seed-search loop of GetLevelCompactionFiles
(compaction_predictor.cc:476-513): starting from the (already clamped)
cursor, walk the priority positions cyclically, skipping entries whose index
is out of range and files already being compacted, until a start file is
found or every position has been checked. The fuel argument is the
checked_files bound pri.length of the source loop. -/
def priScan (level_files : List FileMeta) (pri : List Nat) : Nat → Nat → Option (Nat × FileMeta)
  | _, 0 => none
  | cpi, fuel + 1 =>
    match pri.get? cpi with
    | none => none
    | some index =>
      match level_files.get? index with
      | none => priScan level_files pri ((cpi + 1) % pri.length) fuel
      | some f =>
        if f.being_compacted then priScan level_files pri ((cpi + 1) % pri.length) fuel
        else some (index, f)

/-- The running maximum size of the fallback search of
compaction_predictor.cc:519-529: 0 while no file is selected. -/
def accSize (acc : Option FileMeta) : Nat :=
  match acc with
  | none => 0
  | some g => g.size

/-- The fallback of compaction_predictor.cc:516-543: the non-being-compacted
file of strictly greatest size (sizes must beat the running maximum that
starts at 0, so files of size 0 are never selected). -/
def largestNonCompacted (files : List FileMeta) : Option FileMeta :=
  files.foldl
    (fun acc f =>
      if f.being_compacted then acc
      else if accSize acc < f.size then some f
      else acc)
    none

/-- State of the clean-cut expansion loop of compaction_predictor.cc:546-608:
the identity set built so far, the set of included file indices, and the
running key interval [lo, hi]. -/
structure ExpState where
  ids : Finset Nat
  included : Finset Nat
  lo : Nat
  hi : Nat
deriving DecidableEq

/-- One iteration of the inner scan of compaction_predictor.cc:564-599 at
file index i: skip already included indices, out-of-range indices and
being-compacted files; when the candidate overlaps [lo, hi], add it and widen
the interval. -/
def expandStep (files : List FileMeta) (st : ExpState) (i : Nat) : ExpState :=
  if i ∈ st.included then st
  else
    match files.get? i with
    | none => st
    | some f =>
      if f.being_compacted then st
      else if rangesOverlap st.lo st.hi f.smallest f.largest then
        { ids := insert f.number st.ids
          included := insert i st.included
          lo := min st.lo f.smallest
          hi := max st.hi f.largest }
      else st

/-- One full scan over all file indices (the for loop at
compaction_predictor.cc:564). -/
def expandPass (files : List FileMeta) (st : ExpState) : ExpState :=
  (List.range files.length).foldl (expandStep files) st

/-- The outer do-while of compaction_predictor.cc:561-607: repeat full scans
while the included set grows. Each growing scan adds at least one index out
of at most files.length, so fuel files.length + 1 always reaches the fixed
point (proved below). -/
def expandLoop (files : List FileMeta) : Nat → ExpState → ExpState
  | 0, st => st
  | fuel + 1, st =>
    let st' := expandPass files st
    if st.included.card < st'.included.card then expandLoop files fuel st' else st'

/-- CompactionPredictor::GetLevelCompactionFiles
(compaction_predictor.cc:421-613): seed via the priority cursor, fall back to
the largest non-being-compacted file, then run the clean-cut expansion to a
fixed point and return the collected identities. -/
def GetLevelCompactionFiles (vs : VStorage) (level : Nat) : Finset Nat :=
  if (vs.levels level).isEmpty then ∅
  else if level = 0 then ∅
  else if (vs.files_by_compaction_pri level).isEmpty then ∅
  else
    match priScan (vs.levels level) (vs.files_by_compaction_pri level)
        (if (vs.files_by_compaction_pri level).length ≤ vs.next_compaction_index level
         then 0 else vs.next_compaction_index level)
        (vs.files_by_compaction_pri level).length with
    | some (si, s) =>
      (expandLoop (vs.levels level) ((vs.levels level).length + 1)
        ⟨{s.number}, {si}, s.smallest, s.largest⟩).ids
    | none =>
      match largestNonCompacted (vs.levels level) with
      | some g =>
        (expandLoop (vs.levels level) ((vs.levels level).length + 1)
          ⟨{g.number}, ∅, g.smallest, g.largest⟩).ids
      | none => ∅

/-- The seed search of GetNextCompactionFilesFrom
(compaction_predictor.cc:744-753): the first file, in index order, whose
identity is not in the excluded set. There is no being_compacted check here
in the source. The index is carried to embed the pointer comparison
file == start_file of line 762. -/
def firstNonExcludedAux (excluded : Finset Nat) : List FileMeta → Nat → Option (Nat × FileMeta)
  | [], _ => none
  | f :: rest, i =>
    if f.number ∈ excluded then firstNonExcludedAux excluded rest (i + 1)
    else some (i, f)

/-- CompactionPredictor::GetNextCompactionFilesFrom
(compaction_predictor.cc:735-805): seed from the first non-excluded file,
add every non-excluded same-level file overlapping the seed range (a single
pass against the seed range only; no widening, no being_compacted check),
then add every non-excluded next-level file overlapping the seed range. -/
def GetNextCompactionFilesFrom (vs : VStorage) (level : Nat) (excluded_files : Finset Nat) : Finset Nat :=
  if (vs.levels level).isEmpty then ∅
  else
    match firstNonExcludedAux excluded_files (vs.levels level) 0 with
    | none => ∅
    | some (si, s) =>
      if level + 1 < vs.num_levels then
        (vs.levels (level + 1)).foldl
          (fun acc f =>
            if f.number ∉ excluded_files ∧
                rangesOverlap s.smallest s.largest f.smallest f.largest then
              insert f.number acc
            else acc)
          ((vs.levels level).enum.foldl
            (fun acc p =>
              if p.1 ≠ si ∧ p.2.number ∉ excluded_files ∧
                  rangesOverlap s.smallest s.largest p.2.smallest p.2.largest then
                insert p.2.number acc
              else acc)
            {s.number})
      else
        (vs.levels level).enum.foldl
          (fun acc p =>
            if p.1 ≠ si ∧ p.2.number ∉ excluded_files ∧
                rangesOverlap s.smallest s.largest p.2.smallest p.2.largest then
              insert p.2.number acc
            else acc)
          {s.number}

/-- CompactionPredictor::GetPossibleTargetFilesForL0Compaction
(compaction_predictor.cc:202-293): the union range of the non-being-compacted
L0 files, then every non-being-compacted L1 file overlapping it. -/
def GetPossibleTargetFilesForL0Compaction (vs : VStorage) : Finset Nat :=
  if numLevelFiles vs 0 = 0 ∨ numLevelFiles vs 1 = 0 then ∅
  else
    match unionRange ((vs.levels 0).filter (fun f => !f.being_compacted)) with
    | none => ∅
    | some (lo, hi) =>
      (vs.levels 1).foldl
        (fun acc f =>
          if !f.being_compacted && rangesOverlap lo hi f.smallest f.largest then
            insert f.number acc
          else acc)
        ∅

/-- CompactionPredictor::GetTargetLevelFilesForCompaction
(compaction_predictor.cc:296-409): resolve the source identities to their
non-being-compacted files, compute their union range, and return every
non-being-compacted target-level file overlapping it. -/
def GetTargetLevelFilesForCompaction (vs : VStorage) (source_level target_level : Nat)
    (source_files : Finset Nat) : Finset Nat :=
  if source_files = ∅ then ∅
  else if vs.num_levels ≤ target_level then ∅
  else if numLevelFiles vs target_level = 0 then ∅
  else
    let source_meta := (vs.levels source_level).filter
      (fun f => decide (f.number ∈ source_files) && !f.being_compacted)
    match unionRange source_meta with
    | none => ∅
    | some (lo, hi) =>
      (vs.levels target_level).foldl
        (fun acc f =>
          if !f.being_compacted && rangesOverlap lo hi f.smallest f.largest then
            insert f.number acc
          else acc)
        ∅

/-- The summed size of the files of a level whose identity lies in the given
removal set (compaction_predictor.cc:626-631). -/
def removedSize (vs : VStorage) (level : Nat) (files_to_remove : Finset Nat) : Nat :=
  ((vs.levels level).filter (fun f => decide (f.number ∈ files_to_remove))).foldl
    (fun a f => a + f.size) 0

/-- CompactionPredictor::CalculateNewScore (compaction_predictor.cc:615-651):
guard out-of-range levels, clamp when more bytes than the level holds would
be removed, otherwise scale the score by the size remaining per byte. -/
def CalculateNewScore (vs : VStorage) (level : Nat) (files_to_remove : Finset Nat) : ℚ :=
  if level < 1 ∨ vs.num_levels ≤ level then 0
  else if vs.level_bytes level < removedSize vs level files_to_remove then 0
  else
    (if 0 < vs.level_bytes level then vs.score level / (vs.level_bytes level : ℚ) else 0) *
      ((vs.level_bytes level - removedSize vs level files_to_remove : Nat) : ℚ)

/-- The residual refinement loop of compaction_predictor.cc:132-160: up to
fuel (three in the source) extra rounds while the re-estimated score stays
above 1.0; each round asks GetNextCompactionFilesFrom for more files,
stopping as soon as nothing is found. -/
def refineLoop (vs : VStorage) (level : Nat) : Nat → ℚ → Finset Nat → Finset Nat
  | 0, _, acc => acc
  | fuel + 1, new_score, acc =>
    if new_score ≤ 1 then acc
    else
      let additional := GetNextCompactionFilesFrom vs level acc
      if additional = ∅ then acc
      else
        refineLoop vs level fuel
          (CalculateNewScore vs level (acc ∪ additional)) (acc ∪ additional)

/-- The contribution of one candidate level to the prediction
(compaction_predictor.cc:61-183): skip empty levels and levels that will not
compact; otherwise the clean-cut set, the refinement additions, and the
next-level files overlapping the initial clean-cut set. -/
def levelPrediction (vs : VStorage) (level : Nat) : Finset Nat :=
  if (vs.levels level).isEmpty then ∅
  else if !willCompact vs level then ∅
  else if GetLevelCompactionFiles vs level = ∅ then ∅
  else
    refineLoop vs level 3
      (CalculateNewScore vs level (GetLevelCompactionFiles vs level))
      (GetLevelCompactionFiles vs level)
    ∪ (if level + 1 < vs.num_levels then
        GetTargetLevelFilesForCompaction vs level (level + 1)
          (GetLevelCompactionFiles vs level)
      else ∅)

/-- The current_predicted set computed by one call of
CompactionPredictor::PredictCompactionFiles (compaction_predictor.cc:11-183):
the L0 target files when L0 is overloaded, then the per-level predictions for
levels 1 to num_levels - 2. The ledger predicted_files_ is never read while
this set is computed. -/
def predictResult (vs : VStorage) : Finset Nat :=
  (List.range' 1 (vs.num_levels - 2)).foldl
    (fun acc level => acc ∪ levelPrediction vs level)
    (if 0 < numLevelFiles vs 0 ∧ 1 < vs.score 0 then
      GetPossibleTargetFilesForL0Compaction vs
    else ∅)

/-- CompactionPredictor::PredictCompactionFiles (compaction_predictor.cc:11-199):
returns the predicted set and afterwards increments the ledger counter of
every returned identity (lines 186-190). -/
def PredictCompactionFiles (vs : VStorage) (ledger : Ledger) : Finset Nat × Ledger :=
  (predictResult vs, recordLedger ledger (predictResult vs))

/-- Modelled from the spec: round-robin mode (spec section 4.6, SelectBatch and
MaxBatchBytes) has no implementation in the source files, so the walk is
modelled from the specification words: starting at NextCompactionIndex, walk
files in index order and stop at the first file that is being compacted,
overlaps the immediately preceding accepted file, or would push the batch
over the budget. -/
def selectBatchAux (budget : Nat) : List FileMeta → Nat → Option FileMeta → List FileMeta
  | [], _, _ => []
  | f :: rest, acc, prev =>
    if f.being_compacted then []
    else if (match prev with
             | some p => rangesOverlap p.smallest p.largest f.smallest f.largest
             | none => false) then []
    else if budget < acc + f.size then []
    else f :: selectBatchAux budget rest (acc + f.size) (some f)

/-- Modelled from the spec: SelectBatch(level) of spec section 4.6 over the
snapshot, walking from the NextCompactionIndex cursor. -/
def selectBatch (vs : VStorage) (level : Nat) (maxBatchBytes : Nat) : List FileMeta :=
  selectBatchAux maxBatchBytes
    ((vs.levels level).drop (vs.next_compaction_index level)) 0 none

/-- Total byte size of a batch. -/
def sizeSum (files : List FileMeta) : Nat :=
  files.foldl (fun a f => a + f.size) 0

/-- The file of strictly greatest size in a list, if any (used only to state
what claim C5 asserts about the refinement seed). -/
def largestBySize (files : List FileMeta) : Option FileMeta :=
  files.foldl
    (fun acc f =>
      match acc with
      | none => some f
      | some g => if g.size < f.size then some f else g)
    none

/-- The per-round additional set exactly as claim C5 describes it (stated from
the claim words, for comparison with GetNextCompactionFilesFrom): seed from
the largest remaining file of the level that is neither excluded nor being
compacted, then the same fixed-point clean-cut expansion as the default
mode over the remaining files. -/
def claimRefineAdditional (vs : VStorage) (level : Nat) (excluded : Finset Nat) : Finset Nat :=
  let remaining := (vs.levels level).filter
    (fun f => !(decide (f.number ∈ excluded)) && !f.being_compacted)
  match largestBySize remaining with
  | none => ∅
  | some g =>
    (expandLoop remaining (remaining.length + 1)
      ⟨{g.number}, ∅, g.smallest, g.largest⟩).ids

/-- Snapshot for claim C1: level 1 holds file 10 (free) and file 11 (being
compacted); the refinement round leaks file 11 into the prediction. -/
def vsC1 : VStorage where
  num_levels := 3
  levels := fun l => if l = 1 then
      [⟨10, 0, 1, 10, false⟩, ⟨11, 5, 6, 10, true⟩] else []
  score := fun l => if l = 1 then 3 else 0
  level_bytes := fun l => if l = 1 then 20 else 0
  files_by_compaction_pri := fun l => if l = 1 then [0] else []
  next_compaction_index := fun _ => 0

/-- Snapshot a for claim C2: a being-compacted level-1 file overlapping the
returned clean-cut set. -/
def vsC2a : VStorage where
  num_levels := 3
  levels := fun l => if l = 1 then
      [⟨401, 0, 10, 10, false⟩, ⟨402, 5, 20, 10, true⟩] else []
  score := fun l => if l = 1 then 3 else 0
  level_bytes := fun l => if l = 1 then 20 else 0
  files_by_compaction_pri := fun l => if l = 1 then [0] else []
  next_compaction_index := fun _ => 0

/-- Snapshot b for claim C2: after one refinement round the accumulated set
is {501, 502, 503} with merged range [0, 40], while the free file 504 with
range [38, 45] overlaps it and stays outside. -/
def vsC2b : VStorage where
  num_levels := 3
  levels := fun l => if l = 1 then
      [⟨501, 0, 10, 10, false⟩, ⟨502, 20, 30, 10, false⟩,
       ⟨503, 25, 40, 10, false⟩, ⟨504, 38, 45, 10, false⟩] else []
  score := fun l => if l = 1 then 2 else 0
  level_bytes := fun l => if l = 1 then 40 else 0
  files_by_compaction_pri := fun l => if l = 1 then [0] else []
  next_compaction_index := fun _ => 0

/-- Snapshot for claim C3: level 1 is overloaded (score 3/2), level 2 has
score 1/2, so level 2 is cascaded into candidacy although its own score is
not above 0.8. -/
def vsC3 : VStorage where
  num_levels := 4
  levels := fun l =>
    if l = 1 then [⟨30, 0, 1, 5, false⟩]
    else if l = 2 then [⟨40, 100, 110, 5, false⟩]
    else []
  score := fun l => if l = 1 then 2 else 0
  level_bytes := fun l => if l = 1 then 5 else if l = 2 then 5 else 0
  files_by_compaction_pri := fun l => if l = 1 ∨ l = 2 then [0] else []
  next_compaction_index := fun _ => 0

/-- Snapshot for claim C4: the only priority position points at a
being-compacted file, yet file 100 is selected through the largest-file
fallback. -/
def vsC4 : VStorage where
  num_levels := 3
  levels := fun l => if l = 1 then
      [⟨100, 0, 1, 5, false⟩, ⟨101, 10, 11, 7, true⟩] else []
  score := fun l => if l = 1 then 2 else 0
  level_bytes := fun l => if l = 1 then 12 else 0
  files_by_compaction_pri := fun l => if l = 1 then [1] else []
  next_compaction_index := fun _ => 0

/-- Snapshot for claim C5: with {301} already predicted, the source seeds the
next round from the first remaining file 302, while the claim would seed from
the largest remaining file 303. -/
def vsC5 : VStorage where
  num_levels := 3
  levels := fun l => if l = 1 then
      [⟨301, 0, 10, 10, false⟩, ⟨302, 20, 30, 10, false⟩,
       ⟨303, 40, 50, 40, false⟩] else []
  score := fun l => if l = 1 then 4 else 0
  level_bytes := fun l => if l = 1 then 60 else 0
  files_by_compaction_pri := fun l => if l = 1 then [0] else []
  next_compaction_index := fun _ => 0

/-- Second snapshot for claim C5: the first remaining file 311 is being
compacted; the source still seeds from it, while the claim would skip it and
seed from 312. -/
def vsC5b : VStorage where
  num_levels := 3
  levels := fun l => if l = 1 then
      [⟨311, 0, 1, 5, true⟩, ⟨312, 10, 11, 5, false⟩] else []
  score := fun l => if l = 1 then 2 else 0
  level_bytes := fun l => if l = 1 then 10 else 0
  files_by_compaction_pri := fun l => if l = 1 then [0] else []
  next_compaction_index := fun _ => 0

/-- Snapshot for claim C6: scores are nonzero at level 0 and at the
zero-byte level 1, where CalculateNewScore returns 0 even for an empty
removal set. -/
def vsC6 : VStorage where
  num_levels := 3
  levels := fun _ => []
  score := fun l => if l = 0 ∨ l = 1 then 2 else 0
  level_bytes := fun _ => 0
  files_by_compaction_pri := fun _ => []
  next_compaction_index := fun _ => 0

/-- Witness snapshot for claim C6: level 1 holds one file of size 10 out of
20 bytes with score 3. -/
def vsC6w : VStorage where
  num_levels := 3
  levels := fun l => if l = 1 then [⟨601, 0, 1, 10, false⟩] else []
  score := fun l => if l = 1 then 3 else 0
  level_bytes := fun l => if l = 1 then 20 else 0
  files_by_compaction_pri := fun l => if l = 1 then [0] else []
  next_compaction_index := fun _ => 0

/-- Snapshot for claim C7: CheckL1ToL2Compaction holds (scores 2 and 4/5,
level 0 backlogged with one file) but level 1 holds no file, so the selection
loop never reaches it. -/
def vsC7 : VStorage where
  num_levels := 3
  levels := fun l => if l = 0 then [⟨700, 0, 9, 5, false⟩] else []
  score := fun l => if l = 0 then 2 else if l = 1 then q4_5 else 0
  level_bytes := fun l => if l = 0 then 5 else 0
  files_by_compaction_pri := fun _ => []
  next_compaction_index := fun _ => 0

/-- Witness snapshot for claim C7: as vsC7 but level 1 holds a file. -/
def vsC7w : VStorage where
  num_levels := 3
  levels := fun l => if l = 1 then [⟨701, 0, 1, 5, false⟩] else []
  score := fun l => if l = 0 then 2 else if l = 1 then q4_5 else 0
  level_bytes := fun l => if l = 1 then 5 else 0
  files_by_compaction_pri := fun l => if l = 1 then [0] else []
  next_compaction_index := fun _ => 0

/-- Witness ledger for claim C8: one entry for identity 5. -/
def ledgerC8 : Ledger := fun n => if n = 5 then some 2 else none

/-- Witness snapshot for claim C2: the clean cut at level 1 collects files
801, 802, 803 (merged range [2, 6]) and the free file 804 at [100, 101] stays
outside without overlapping. -/
def vsC2w : VStorage where
  num_levels := 3
  levels := fun l => if l = 1 then
      [⟨801, 2, 4, 10, false⟩, ⟨802, 3, 5, 10, false⟩,
       ⟨803, 5, 6, 10, false⟩, ⟨804, 100, 101, 10, false⟩] else []
  score := fun l => if l = 1 then 2 else 0
  level_bytes := fun l => if l = 1 then 40 else 0
  files_by_compaction_pri := fun l => if l = 1 then [0] else []
  next_compaction_index := fun _ => 0

/-- The threshold literal of the 0.8 checks equals 4/5. -/
theorem q4_5_eq : q4_5 = 4/5 := by
  rw [q4_5, Rat.mk_eq_divInt]; norm_num [Rat.divInt_eq_div]

/-- The threshold literal of the 0.7 check equals 7/10. -/
theorem q7_10_eq : q7_10 = 7/10 := by
  rw [q7_10, Rat.mk_eq_divInt]; norm_num [Rat.divInt_eq_div]

/-- A failed search means every level below L has score at most 1. -/
theorem findTriggeringLevel_none (vs : VStorage) :
    ∀ L, findTriggeringLevel vs L = none → ∀ j, j < L → vs.score j ≤ 1 := by
  intro L
  induction L with
  | zero => intro _ j hj; omega
  | succ h ih =>
    intro hnone j hj
    rw [findTriggeringLevel] at hnone
    by_cases hs : 1 < vs.score h
    · rw [if_pos hs] at hnone; exact absurd hnone (by simp)
    · rw [if_neg hs] at hnone
      rcases Nat.lt_succ_iff_lt_or_eq.mp hj with hj' | hj'
      · exact ih hnone j hj'
      · subst hj'; exact not_lt.mp hs

/-- A successful search returns the nearest higher level with score above 1. -/
theorem findTriggeringLevel_some (vs : VStorage) :
    ∀ L t, findTriggeringLevel vs L = some t →
      t < L ∧ 1 < vs.score t ∧ ∀ j, t < j → j < L → vs.score j ≤ 1 := by
  intro L
  induction L with
  | zero => intro t ht; exact absurd ht (by simp [findTriggeringLevel])
  | succ h ih =>
    intro t ht
    rw [findTriggeringLevel] at ht
    by_cases hs : 1 < vs.score h
    · rw [if_pos hs] at ht
      obtain rfl : h = t := by simpa using ht
      exact ⟨Nat.lt_succ_self h, hs, fun j h1 h2 => by omega⟩
    · rw [if_neg hs] at ht
      obtain ⟨h1, h2, h3⟩ := ih t ht
      refine ⟨Nat.lt_succ_of_lt h1, h2, fun j hj1 hj2 => ?_⟩
      rcases Nat.lt_succ_iff_lt_or_eq.mp hj2 with hj' | hj'
      · exact h3 j hj1 hj'
      · subst hj'; exact not_lt.mp hs

/-- If some level below L has score above 1, the search succeeds. -/
theorem findTriggeringLevel_exists (vs : VStorage) :
    ∀ L U, U < L → 1 < vs.score U → ∃ t, findTriggeringLevel vs L = some t := by
  intro L
  induction L with
  | zero => intro U hU; omega
  | succ h ih =>
    intro U hU hs
    rw [findTriggeringLevel]
    by_cases hh : 1 < vs.score h
    · exact ⟨h, if_pos hh⟩
    · rw [if_neg hh]
      have hU' : U < h := by
        rcases Nat.lt_succ_iff_lt_or_eq.mp hU with h' | h'
        · exact h'
        · subst h'; exact absurd hs hh
      exact ih U hU' hs

/-- The cascading-overload test holds exactly when some higher level has score
above 1 and every level strictly between it and the current level has score
above the 0.8 threshold. -/
theorem cascadeOk_iff (vs : VStorage) (L : Nat) :
    cascadeOk vs L = true ↔
      ∃ U, U < L ∧ 1 < vs.score U ∧ ∀ m, U < m → m < L → q4_5 < vs.score m := by
  constructor
  · intro h
    rw [cascadeOk] at h
    cases ht : findTriggeringLevel vs L with
    | none => rw [ht] at h; exact absurd h (by simp)
    | some t =>
      rw [ht] at h
      obtain ⟨h1, h2, _⟩ := findTriggeringLevel_some vs L t ht
      refine ⟨t, h1, h2, fun m hm1 hm2 => ?_⟩
      have hmem : m ∈ List.range' (t + 1) (L - (t + 1)) := by
        rw [List.mem_range'_1]
        exact ⟨by omega, by omega⟩
      have := List.all_eq_true.mp h m hmem
      simpa using this
  · rintro ⟨U, hU, hsU, hmid⟩
    obtain ⟨t, ht⟩ := findTriggeringLevel_exists vs L U hU hsU
    obtain ⟨h1, h2, h3⟩ := findTriggeringLevel_some vs L t ht
    have htU : U ≤ t := by
      by_contra hc
      exact absurd (h3 U (not_le.mp hc) hU) (not_le.mpr hsU)
    rw [cascadeOk, ht]
    rw [List.all_eq_true]
    intro m hm
    rw [List.mem_range'_1] at hm
    have : q4_5 < vs.score m := hmid m (by omega) (by omega)
    simpa using this

/-- C3 (amended): a level L with 1 <= L < NumLevels()-1 and Score(L) <= 1.0 is
treated as a compaction candidate by PredictCompactionFiles exactly when the
level is nonempty and there exists a level U < L with Score(U) > 1.0 such that
every strictly intermediate level m with U < m < L has Score(m) > 0.8 (the
level L itself is not required to have Score(L) > 0.8; the special L1 case
adds no further candidacies here because it requires Score(0) > 1.0, which
already cascades onto level 1). -/
theorem c3_cascade_candidacy (vs : VStorage) (L : Nat) (h1 : 1 ≤ L)
    (h2 : L < vs.num_levels - 1) (h3 : vs.score L ≤ 1) :
    treatedAsCandidate vs L = true ↔
      (vs.levels L ≠ [] ∧
        ∃ U, U < L ∧ 1 < vs.score U ∧
          ∀ m, U < m → m < L → (4 : ℚ)/5 < vs.score m) := by
  rw [← q4_5_eq]
  have hnotdirect : ¬ 1 < vs.score L := not_lt.mpr h3
  constructor
  · intro h
    rw [treatedAsCandidate, Bool.and_eq_true] at h
    obtain ⟨hne, hwc⟩ := h
    have hne' : vs.levels L ≠ [] := by
      intro hnil
      rw [hnil] at hne
      exact absurd hne (by simp)
    refine ⟨hne', ?_⟩
    rw [willCompact, if_neg hnotdirect] at hwc
    by_cases hcas : cascadeOk vs L = true
    · exact (cascadeOk_iff vs L).mp hcas
    · rw [if_neg (by simpa using hcas)] at hwc
      by_cases hsp : L = 1 ∧ CheckL1ToL2Compaction vs = true
      · obtain ⟨rfl, hch⟩ := hsp
        rw [CheckL1ToL2Compaction] at hch
        by_cases h0 : vs.score 0 ≤ 1
        · rw [if_pos h0] at hch; exact absurd hch (by simp)
        · refine ⟨0, by omega, not_le.mp h0, fun m hm1 hm2 => by omega⟩
      · have : (decide (L = 1) && CheckL1ToL2Compaction vs) = false := by
          by_cases hL : L = 1
          · by_cases hc : CheckL1ToL2Compaction vs = true
            · exact absurd ⟨hL, hc⟩ hsp
            · simp only [Bool.not_eq_true] at hc
              simp [hc]
          · simp [hL]
        rw [this] at hwc
        exact absurd hwc (by simp)
  · rintro ⟨hne, U, hU, hsU, hmid⟩
    have hcas : cascadeOk vs L = true :=
      (cascadeOk_iff vs L).mpr ⟨U, hU, hsU, hmid⟩
    rw [treatedAsCandidate, Bool.and_eq_true]
    constructor
    · simpa using hne
    · rw [willCompact, if_neg hnotdirect, if_pos hcas]

/-- C3 counterexample: in vsC3, level 2 (score 0, below the 0.8 threshold) is
treated as a candidate through the cascade from level 1 (score 2), although
the claim condition, which demands Score(m) > 0.8 for every m with
U < m <= L including L itself, holds for no U < 2. -/
theorem c3_counterexample :
    treatedAsCandidate vsC3 2 = true ∧ vsC3.score 2 ≤ 1 ∧ 2 < vsC3.num_levels - 1 ∧
      ¬ ∃ U ∈ Finset.range 2, 1 < vsC3.score U ∧
          ∀ m ∈ Finset.Icc (U + 1) 2, q4_5 < vsC3.score m := by
  refine ⟨by decide, by decide, by decide, by decide⟩

/-- C3 witness: the amended equivalence instantiated on vsC3 at level 2. -/
theorem c3_cascade_candidacy_witness : treatedAsCandidate vsC3 2 = true := by
  refine (c3_cascade_candidacy vsC3 2 (by decide) (by decide) (by decide)).mpr ?_
  exact ⟨by decide, 1, by decide, by decide, fun m hm1 hm2 => by omega⟩

/-- C7 (amended): CheckL1ToL2Compaction returns true exactly when
Score(0) > 1.0, Score(1) < 1.0, and one of Score(1) >= 0.7,
FileCount(1) >= 8, or ByteSize(2) > 0 with ByteSize(1) > 2 ByteSize(2)
holds; and whenever it returns true and level 1 is nonempty, level 1 is
treated as a candidate although Score(1) <= 1.0. -/
theorem c7_backpressure (vs : VStorage) :
    (CheckL1ToL2Compaction vs = true ↔
      (1 < vs.score 0 ∧ vs.score 1 < 1 ∧
        ((7 : ℚ)/10 ≤ vs.score 1 ∨ 8 ≤ numLevelFiles vs 1 ∨
          (0 < vs.level_bytes 2 ∧ 2 * vs.level_bytes 2 < vs.level_bytes 1)))) ∧
    (CheckL1ToL2Compaction vs = true → vs.levels 1 ≠ [] →
      treatedAsCandidate vs 1 = true ∧ vs.score 1 ≤ 1) := by
  have hiff : CheckL1ToL2Compaction vs = true ↔
      (1 < vs.score 0 ∧ vs.score 1 < 1 ∧
        ((7 : ℚ)/10 ≤ vs.score 1 ∨ 8 ≤ numLevelFiles vs 1 ∨
          (0 < vs.level_bytes 2 ∧ 2 * vs.level_bytes 2 < vs.level_bytes 1))) := by
    rw [← q7_10_eq, CheckL1ToL2Compaction]
    split_ifs with hA hB hC hD hE
    · simp
      intro h
      exact absurd hA (not_le.mpr h)
    · simp
      intro _ h
      exact absurd hB (not_le.mpr h)
    · simp [not_le.mp hA, not_le.mp hB, hC]
    · simp [not_le.mp hA, not_le.mp hB, hD]
    · simp [not_le.mp hA, not_le.mp hB, hE]
    · simp
      intro _ _
      push_neg at hC hD hE
      refine ⟨hC, hD, fun h2 => ?_⟩
      exact not_lt.mp (fun hcon => absurd (hE h2) (not_le.mpr hcon))
  refine ⟨hiff, fun hch hne => ?_⟩
  obtain ⟨h0, h1, _⟩ := hiff.mp hch
  have hcas : cascadeOk vs 1 = true :=
    (cascadeOk_iff vs 1).mpr ⟨0, by omega, h0, fun m hm1 hm2 => by omega⟩
  have hwc : willCompact vs 1 = true := by
    rw [willCompact, if_neg (not_lt.mpr (le_of_lt h1)), if_pos hcas]
  refine ⟨?_, le_of_lt h1⟩
  rw [treatedAsCandidate, Bool.and_eq_true, hwc]
  refine ⟨?_, rfl⟩
  simpa using hne

/-- C7 counterexample: in vsC7, CheckL1ToL2Compaction holds (scores 2 and
0.8) but level 1 is empty, so the selection loop skips it and level 1 is not
treated as a candidate, against the unconditional claim that it becomes one. -/
theorem c7_counterexample :
    CheckL1ToL2Compaction vsC7 = true ∧ treatedAsCandidate vsC7 1 = false := by
  refine ⟨by decide, by decide⟩

/-- C7 witness: the amended statement instantiated on vsC7w, where level 1 is
nonempty. -/
theorem c7_backpressure_witness :
    treatedAsCandidate vsC7w 1 = true ∧ vsC7w.score 1 ≤ 1 :=
  (c7_backpressure vsC7w).2 (by decide) (by decide)

/-- C8: retiring an identity removes its ledger entry whatever the counter
was, for both feedback operations, and an identity without an entry is a
no-op that leaves the ledger unchanged. -/
theorem ledger_retire_and_ignore (m : Ledger) (x : Nat) :
    RemoveCompactedFiles m [x] x = none ∧
    RemoveIncorrectPredictedFiles m [x] x = none ∧
    (m x = none →
      RemoveCompactedFiles m [x] = m ∧ RemoveIncorrectPredictedFiles m [x] = m) := by
  refine ⟨?_, ?_, fun hnone => ?_⟩
  · by_cases h : (m x).isSome
    · simp [RemoveCompactedFiles, h, ledgerErase]
    · simp [RemoveCompactedFiles, h]
      exact Option.not_isSome_iff_eq_none.mp h
  · by_cases h : (m x).isSome
    · simp [RemoveIncorrectPredictedFiles, h, ledgerErase]
    · simp [RemoveIncorrectPredictedFiles, h]
      exact Option.not_isSome_iff_eq_none.mp h
  · have h : (m x).isSome = false := by rw [hnone]; rfl
    constructor
    · simp [RemoveCompactedFiles, h]
    · simp [RemoveIncorrectPredictedFiles, h]

/-- C8 witness: the theorem instantiated on a concrete ledger holding only
identity 5, retiring the absent identity 7. -/
theorem ledger_retire_and_ignore_witness :
    RemoveCompactedFiles ledgerC8 [7] 7 = none ∧ RemoveCompactedFiles ledgerC8 [7] = ledgerC8 := by
  have h := ledger_retire_and_ignore ledgerC8 7
  exact ⟨h.1, (h.2.2 rfl).1⟩

/-- Every foldl of size accumulation shifts the initial value out. -/
theorem sizeSum_foldl (l : List FileMeta) :
    ∀ a : Nat, l.foldl (fun a f => a + f.size) a = a + sizeSum l := by
  induction l with
  | nil => intro a; simp [sizeSum]
  | cons f rest ih =>
    intro a
    rw [List.foldl_cons, ih]
    have h1 := ih f.size
    have h2 : sizeSum (f :: rest) = List.foldl (fun a f => a + f.size) f.size rest := by
      rw [sizeSum, List.foldl_cons, Nat.zero_add]
    omega

/-- The batch walk never lets the accumulated size pass the budget. -/
theorem selectBatchAux_le (budget : Nat) :
    ∀ (l : List FileMeta) (acc : Nat) (prev : Option FileMeta), acc ≤ budget →
      acc + sizeSum (selectBatchAux budget l acc prev) ≤ budget := by
  intro l
  induction l with
  | nil => intro acc prev h; simp [selectBatchAux, sizeSum]; exact h
  | cons f rest ih =>
    intro acc prev h
    simp only [selectBatchAux]
    by_cases hbc : f.being_compacted = true
    · simp [hbc, sizeSum]; exact h
    · rw [if_neg (by simp [hbc])]
      by_cases hov : (match prev with
          | some p => rangesOverlap p.smallest p.largest f.smallest f.largest
          | none => false) = true
      · rw [if_pos hov]; simp [sizeSum]; exact h
      · rw [if_neg hov]
        by_cases hb : budget < acc + f.size
        · rw [if_pos hb]; simp [sizeSum]; exact h
        · rw [if_neg hb]
          have hrec := ih (acc + f.size) (some f) (not_lt.mp hb)
          have h2 : sizeSum (f :: selectBatchAux budget rest (acc + f.size) (some f)) =
              f.size + sizeSum (selectBatchAux budget rest (acc + f.size) (some f)) := by
            rw [sizeSum, List.foldl_cons, Nat.zero_add, sizeSum_foldl]
          omega

/-- C9: in round-robin mode the cumulative byte size of a returned batch for
one level never exceeds the MaxBatchBytes budget. -/
theorem selectBatch_budget (vs : VStorage) (level maxBatchBytes : Nat) :
    sizeSum (selectBatch vs level maxBatchBytes) ≤ maxBatchBytes := by
  have h := selectBatchAux_le maxBatchBytes
    ((vs.levels level).drop (vs.next_compaction_index level)) 0 none (Nat.zero_le _)
  rw [selectBatch]
  omega

/-- C10: the returned prediction set does not depend on the ledger contents;
two predictors over the same snapshot with arbitrarily different
predicted_files_ maps return the same set. -/
theorem predict_independent_of_ledger (vs : VStorage) (l1 l2 : Ledger) :
    (PredictCompactionFiles vs l1).1 = (PredictCompactionFiles vs l2).1 := rfl

/-- Removing the empty identity set removes zero bytes. -/
theorem removedSize_empty (vs : VStorage) (level : Nat) :
    removedSize vs level ∅ = 0 := by
  rw [removedSize]
  have h : (vs.levels level).filter (fun f => decide (f.number ∈ (∅ : Finset Nat))) = [] := by
    simp
  rw [h]
  rfl

/-- C6 (amended): the score re-estimation of CalculateNewScore returns 0 for
level 0 and for levels at or beyond NumLevels; for an in-range level of
positive byte size it returns Score(level) unchanged when the removed set is
empty, 0 when the removed bytes exceed the byte size, and otherwise
Score(level) times (1 - removed/total); for an in-range level whose byte
size is 0 it also returns 0 regardless of the removed set. -/
theorem calculateNewScore_spec (vs : VStorage) (level : Nat) (removed : Finset Nat) :
    ((level = 0 ∨ vs.num_levels ≤ level) → CalculateNewScore vs level removed = 0) ∧
    (1 ≤ level → level < vs.num_levels → vs.level_bytes level = 0 →
      CalculateNewScore vs level removed = 0) ∧
    (1 ≤ level → level < vs.num_levels → 0 < vs.level_bytes level → removed = ∅ →
      CalculateNewScore vs level removed = vs.score level) ∧
    (1 ≤ level → level < vs.num_levels →
      vs.level_bytes level < removedSize vs level removed →
      CalculateNewScore vs level removed = 0) ∧
    (1 ≤ level → level < vs.num_levels → 0 < vs.level_bytes level →
      removedSize vs level removed ≤ vs.level_bytes level →
      CalculateNewScore vs level removed =
        vs.score level *
          (1 - (removedSize vs level removed : ℚ) / (vs.level_bytes level : ℚ))) := by
  refine ⟨fun hout => ?_, fun h1 h2 hz => ?_, fun h1 h2 hb he => ?_,
    fun h1 h2 hover => ?_, fun h1 h2 hb hle => ?_⟩
  · rw [CalculateNewScore, if_pos (by omega)]
  · rw [CalculateNewScore, if_neg (by omega)]
    by_cases hc : vs.level_bytes level < removedSize vs level removed
    · rw [if_pos hc]
    · rw [if_neg hc, if_neg (by omega)]
      ring
  · subst he
    rw [CalculateNewScore, if_neg (by omega), removedSize_empty,
      if_neg (by omega), if_pos hb]
    rw [Nat.sub_zero]
    field_simp
  · rw [CalculateNewScore, if_neg (by omega), if_pos hover]
  · rw [CalculateNewScore, if_neg (by omega), if_neg (not_lt.mpr hle), if_pos hb]
    have hbne : ((vs.level_bytes level : ℚ)) ≠ 0 := by
      exact_mod_cast Nat.pos_iff_ne_zero.mp hb
    rw [Nat.cast_sub hle]
    field_simp

/-- C6 counterexample: with an empty removed set the claim demands the score
unchanged for every level, but the source returns 0 at level 0 (guard
level < 1) and at a zero-byte level 1, although both scores are 2. -/
theorem calculateNewScore_counterexample :
    CalculateNewScore vsC6 0 ∅ = 0 ∧ vsC6.score 0 = 2 ∧
    CalculateNewScore vsC6 1 ∅ = 0 ∧ vsC6.score 1 = 2 ∧ (0 : ℚ) ≠ 2 := by
  refine ⟨by decide, by decide, ?_, by decide, by decide⟩
  rw [CalculateNewScore, show removedSize vsC6 1 ∅ = 0 from by decide]
  norm_num [vsC6]

/-- C6 witness: the main branch instantiated on vsC6w, removing the 10-byte
file 601 from the 20-byte level 1 with score 3 gives 3 * (1 - 10/20) = 3/2. -/
theorem calculateNewScore_spec_witness : CalculateNewScore vsC6w 1 {601} = 3/2 := by
  have h := (calculateNewScore_spec vsC6w 1 {601}).2.2.2.2
    (by decide) (by decide) (by decide) (by decide)
  rw [h, show removedSize vsC6w 1 {601} = 10 from by decide]
  norm_num [vsC6w]

/-- With the re-estimated score at most 1 the refinement loop stops. -/
theorem refineLoop_stop (vs : VStorage) (level fuel : Nat) (s : ℚ) (acc : Finset Nat)
    (h : s ≤ 1) : refineLoop vs level (fuel + 1) s acc = acc := by
  rw [refineLoop, if_pos h]

/-- With nothing further to predict the refinement loop stops. -/
theorem refineLoop_empty (vs : VStorage) (level fuel : Nat) (s : ℚ) (acc : Finset Nat)
    (h : ¬ s ≤ 1) (he : GetNextCompactionFilesFrom vs level acc = ∅) :
    refineLoop vs level (fuel + 1) s acc = acc := by
  rw [refineLoop, if_neg h, if_pos he]

/-- One productive refinement round merges the additional files in and
recomputes the score. -/
theorem refineLoop_step (vs : VStorage) (level fuel : Nat) (s : ℚ) (acc A : Finset Nat)
    (h : ¬ s ≤ 1) (he : GetNextCompactionFilesFrom vs level acc = A) (hne : A ≠ ∅) :
    refineLoop vs level (fuel + 1) s acc =
      refineLoop vs level fuel (CalculateNewScore vs level (acc ∪ A)) (acc ∪ A) := by
  rw [refineLoop, if_neg h, he, if_neg hne]

/-- C1 (code bug): PredictCompactionFiles returns the set {10, 11} on vsC1
although file 11 is being compacted: the refinement round obtains it through
GetNextCompactionFilesFrom, which never consults being_compacted, against
the stated invariant that such a file is never a member of a returned
prediction set. -/
theorem predict_leaks_being_compacted :
    11 ∈ (PredictCompactionFiles vsC1 (fun _ => none)).1 ∧
    ∃ f ∈ vsC1.levels 1, f.number = 11 ∧ f.being_compacted = true := by
  have h1 : CalculateNewScore vsC1 1 {10} = 3/2 := by
    rw [CalculateNewScore, show removedSize vsC1 1 {10} = 10 from by decide]
    norm_num [vsC1]
  have h2 : CalculateNewScore vsC1 1 ({10} ∪ {11}) = 0 := by
    rw [CalculateNewScore, show removedSize vsC1 1 ({10} ∪ {11}) = 20 from by decide]
    norm_num [vsC1]
  have hrefine : refineLoop vsC1 1 3 (CalculateNewScore vsC1 1 {10}) {10} = {10, 11} := by
    rw [h1]
    rw [show (3:Nat) = 2 + 1 from rfl,
      refineLoop_step vsC1 1 2 (3/2) {10} {11} (by norm_num) (by decide) (by decide)]
    rw [h2]
    rw [show (2:Nat) = 1 + 1 from rfl, refineLoop_stop vsC1 1 1 0 _ (by norm_num)]
    decide
  have hlp : levelPrediction vsC1 1 = {10, 11} := by
    rw [levelPrediction,
      if_neg (show ¬ (vsC1.levels 1).isEmpty = true from by decide),
      if_neg (show ¬ (!willCompact vsC1 1) = true from by decide),
      if_neg (show ¬ GetLevelCompactionFiles vsC1 1 = ∅ from by decide),
      show GetLevelCompactionFiles vsC1 1 = {10} from by decide, hrefine,
      if_pos (show 1 + 1 < vsC1.num_levels from by decide),
      show GetTargetLevelFilesForCompaction vsC1 1 (1 + 1) {10} = ∅ from by decide]
    decide
  have hp : predictResult vsC1 = {10, 11} := by
    rw [predictResult,
      show List.range' 1 (vsC1.num_levels - 2) = [1] from rfl,
      List.foldl_cons, List.foldl_nil,
      if_neg (show ¬ (0 < numLevelFiles vsC1 0 ∧ 1 < vsC1.score 0) from by decide),
      hlp]
    decide
  constructor
  · show 11 ∈ predictResult vsC1
    rw [hp]
    decide
  · decide

/-- One expansion step only grows the identity and index sets and only widens
the key interval. -/
theorem expandStep_mono (files : List FileMeta) (st : ExpState) (i : Nat) :
    st.ids ⊆ (expandStep files st i).ids ∧
    st.included ⊆ (expandStep files st i).included ∧
    (expandStep files st i).lo ≤ st.lo ∧ st.hi ≤ (expandStep files st i).hi := by
  rw [expandStep]
  split_ifs with h1
  · exact ⟨Finset.Subset.refl _, Finset.Subset.refl _, le_refl _, le_refl _⟩
  · cases hg : files.get? i with
    | none => exact ⟨Finset.Subset.refl _, Finset.Subset.refl _, le_refl _, le_refl _⟩
    | some f =>
      dsimp only
      split_ifs with h2 h3
      · exact ⟨Finset.Subset.refl _, Finset.Subset.refl _, le_refl _, le_refl _⟩
      · exact ⟨Finset.subset_insert _ _, Finset.subset_insert _ _,
          min_le_left _ _, le_max_left _ _⟩
      · exact ⟨Finset.Subset.refl _, Finset.Subset.refl _, le_refl _, le_refl _⟩

/-- One expansion step either changes nothing or adds exactly one index. -/
theorem expandStep_cases (files : List FileMeta) (st : ExpState) (i : Nat) :
    expandStep files st i = st ∨
    (expandStep files st i).included.card = st.included.card + 1 := by
  rw [expandStep]
  split_ifs with h1
  · exact Or.inl rfl
  · cases hg : files.get? i with
    | none => exact Or.inl rfl
    | some f =>
      dsimp only
      split_ifs with h2 h3
      · exact Or.inl rfl
      · exact Or.inr (Finset.card_insert_of_not_mem h1)
      · exact Or.inl rfl

/-- One expansion step keeps the included indices inside the index range of
the file list. -/
theorem expandStep_range (files : List FileMeta) (st : ExpState) (i : Nat)
    (h : st.included ⊆ Finset.range files.length) :
    (expandStep files st i).included ⊆ Finset.range files.length := by
  rw [expandStep]
  split_ifs with h1
  · exact h
  · cases hg : files.get? i with
    | none => exact h
    | some f =>
      dsimp only
      split_ifs with h2 h3
      · exact h
      · intro j hj
        rcases Finset.mem_insert.mp hj with rfl | hj'
        · exact Finset.mem_range.mpr (List.get?_eq_some.mp hg).1
        · exact h hj'
      · exact h

/-- Folding expansion steps over any index list: the included count never
drops, and if it does not grow then every step left the state unchanged. -/
theorem foldl_expandStep_spec (files : List FileMeta) :
    ∀ (L : List Nat) (st : ExpState),
      st.included.card ≤ (L.foldl (expandStep files) st).included.card ∧
      ((L.foldl (expandStep files) st).included.card = st.included.card →
        L.foldl (expandStep files) st = st ∧ ∀ i ∈ L, expandStep files st i = st) := by
  intro L
  induction L with
  | nil => intro st; exact ⟨le_refl _, fun _ => ⟨rfl, by simp⟩⟩
  | cons i rest ih =>
    intro st
    rw [List.foldl_cons]
    rcases expandStep_cases files st i with hstep | hstep
    · rw [hstep]
      refine ⟨(ih st).1, fun hc => ?_⟩
      obtain ⟨hfix, hall⟩ := (ih st).2 hc
      exact ⟨hfix, fun j hj => by
        rcases List.mem_cons.mp hj with rfl | hj'
        · exact hstep
        · exact hall j hj'⟩
    · have h1 := (ih (expandStep files st i)).1
      constructor
      · omega
      · intro hc
        omega

/-- A pass whose included count did not grow is an identity pass: the state
is a fixed point of every single step. -/
theorem expandPass_fix (files : List FileMeta) (st : ExpState)
    (h : (expandPass files st).included.card = st.included.card) :
    expandPass files st = st ∧
      ∀ i ∈ List.range files.length, expandStep files st i = st :=
  (foldl_expandStep_spec files (List.range files.length) st).2 h

/-- A pass only grows the included count. -/
theorem expandPass_card_le (files : List FileMeta) (st : ExpState) :
    st.included.card ≤ (expandPass files st).included.card :=
  (foldl_expandStep_spec files (List.range files.length) st).1

/-- A pass keeps the included indices inside the index range. -/
theorem expandPass_range (files : List FileMeta) (st : ExpState)
    (h : st.included ⊆ Finset.range files.length) :
    (expandPass files st).included ⊆ Finset.range files.length := by
  rw [expandPass]
  generalize List.range files.length = L
  induction L generalizing st with
  | nil => exact h
  | cons i rest ih => exact ih _ (expandStep_range files st i h)

/-- With fuel beyond the number of indices that can still be added, the
expansion loop reaches a state that every single step leaves unchanged (the
do-while of the source exits exactly at such a fixed point). -/
theorem expandLoop_fix (files : List FileMeta) :
    ∀ (fuel : Nat) (st : ExpState),
      st.included ⊆ Finset.range files.length →
      files.length + 1 - st.included.card ≤ fuel →
      (expandLoop files fuel st).included ⊆ Finset.range files.length ∧
      ∀ i ∈ List.range files.length,
        expandStep files (expandLoop files fuel st) i = expandLoop files fuel st := by
  intro fuel
  induction fuel with
  | zero =>
    intro st hsub hfuel
    have hcard : st.included.card ≤ files.length := by
      have := Finset.card_le_card hsub
      simpa using this
    omega
  | succ fuel ih =>
    intro st hsub hfuel
    rw [expandLoop]
    by_cases hgrow : st.included.card < (expandPass files st).included.card
    · rw [if_pos hgrow]
      have hsub' := expandPass_range files st hsub
      have hcard : st.included.card ≤ files.length := by
        have := Finset.card_le_card hsub
        simpa using this
      exact ih (expandPass files st) hsub' (by omega)
    · rw [if_neg hgrow]
      have heq : (expandPass files st).included.card = st.included.card :=
        le_antisymm (not_lt.mp hgrow) (expandPass_card_le files st)
      obtain ⟨hfix, hall⟩ := expandPass_fix files st heq
      rw [hfix]
      exact ⟨hsub, hall⟩

/-- The expansion loop only ever grows the identity set. -/
theorem expandLoop_ids_mono (files : List FileMeta) :
    ∀ (fuel : Nat) (st : ExpState), st.ids ⊆ (expandLoop files fuel st).ids := by
  intro fuel
  induction fuel with
  | zero => intro st; exact Finset.Subset.refl _
  | succ fuel ih =>
    intro st
    have hpass : st.ids ⊆ (expandPass files st).ids := by
      rw [expandPass]
      generalize List.range files.length = L
      induction L generalizing st with
      | nil => exact Finset.Subset.refl _
      | cons i rest ihL =>
        rw [List.foldl_cons]
        exact Finset.Subset.trans (expandStep_mono files st i).1 (ihL _)
    rw [expandLoop]
    by_cases hgrow : st.included.card < (expandPass files st).included.card
    · rw [if_pos hgrow]
      exact Finset.Subset.trans hpass (ih _)
    · rw [if_neg hgrow]
      exact hpass

/-- One expansion step preserves the loop invariant: every included index
contributes its identity, and (under unique file numbers) every file whose
identity was collected has its key range inside the running interval. -/
theorem expandStep_inv (files : List FileMeta)
    (hnodup : (files.map FileMeta.number).Nodup) (st : ExpState) (i : Nat)
    (hA : ∀ j ∈ st.included, ∀ g, files.get? j = some g → g.number ∈ st.ids)
    (hB : ∀ g ∈ files, g.number ∈ st.ids → st.lo ≤ g.smallest ∧ g.largest ≤ st.hi) :
    (∀ j ∈ (expandStep files st i).included, ∀ g, files.get? j = some g →
        g.number ∈ (expandStep files st i).ids) ∧
    (∀ g ∈ files, g.number ∈ (expandStep files st i).ids →
        (expandStep files st i).lo ≤ g.smallest ∧
          g.largest ≤ (expandStep files st i).hi) := by
  rw [expandStep]
  split_ifs with h1
  · exact ⟨hA, hB⟩
  · cases hg : files.get? i with
    | none => exact ⟨hA, hB⟩
    | some f =>
      dsimp only
      split_ifs with h2 h3
      · exact ⟨hA, hB⟩
      · constructor
        · intro j hj g hgj
          rcases Finset.mem_insert.mp hj with rfl | hj'
          · have : g = f := by rw [hg] at hgj; exact (Option.some.inj hgj).symm
            subst this
            exact Finset.mem_insert_self _ _
          · exact Finset.mem_insert_of_mem (hA j hj' g hgj)
        · intro g hgmem hgid
          rcases Finset.mem_insert.mp hgid with heqn | hin
          · have hfmem : f ∈ files := List.get?_mem hg
            have : g = f := List.inj_on_of_nodup_map hnodup hgmem hfmem heqn
            subst this
            exact ⟨min_le_right _ _, le_max_right _ _⟩
          · obtain ⟨hl, hr⟩ := hB g hgmem hin
            exact ⟨le_trans (min_le_left _ _) hl, le_trans hr (le_max_left _ _)⟩
      · exact ⟨hA, hB⟩

/-- The invariant of expandStep_inv is preserved by whole passes and by the
expansion loop. -/
theorem expandLoop_inv (files : List FileMeta)
    (hnodup : (files.map FileMeta.number).Nodup) :
    ∀ (fuel : Nat) (st : ExpState),
      (∀ j ∈ st.included, ∀ g, files.get? j = some g → g.number ∈ st.ids) →
      (∀ g ∈ files, g.number ∈ st.ids → st.lo ≤ g.smallest ∧ g.largest ≤ st.hi) →
      (∀ j ∈ (expandLoop files fuel st).included, ∀ g, files.get? j = some g →
          g.number ∈ (expandLoop files fuel st).ids) ∧
      (∀ g ∈ files, g.number ∈ (expandLoop files fuel st).ids →
          (expandLoop files fuel st).lo ≤ g.smallest ∧
            g.largest ≤ (expandLoop files fuel st).hi) := by
  have hpass : ∀ st : ExpState,
      (∀ j ∈ st.included, ∀ g, files.get? j = some g → g.number ∈ st.ids) →
      (∀ g ∈ files, g.number ∈ st.ids → st.lo ≤ g.smallest ∧ g.largest ≤ st.hi) →
      (∀ j ∈ (expandPass files st).included, ∀ g, files.get? j = some g →
          g.number ∈ (expandPass files st).ids) ∧
      (∀ g ∈ files, g.number ∈ (expandPass files st).ids →
          (expandPass files st).lo ≤ g.smallest ∧
            g.largest ≤ (expandPass files st).hi) := by
    intro st hA hB
    rw [expandPass]
    generalize List.range files.length = L
    induction L generalizing st with
    | nil => exact ⟨hA, hB⟩
    | cons i rest ihL =>
      rw [List.foldl_cons]
      obtain ⟨hA', hB'⟩ := expandStep_inv files hnodup st i hA hB
      exact ihL _ hA' hB'
  intro fuel
  induction fuel with
  | zero => intro st hA hB; exact ⟨hA, hB⟩
  | succ fuel ih =>
    intro st hA hB
    rw [expandLoop]
    obtain ⟨hA', hB'⟩ := hpass st hA hB
    by_cases hgrow : st.included.card < (expandPass files st).included.card
    · rw [if_pos hgrow]
      exact ih _ hA' hB'
    · rw [if_neg hgrow]
      exact ⟨hA', hB'⟩

/-- The union range of a list of files whose ranges all lie inside [lo, hi]
lies inside [lo, hi]. -/
theorem unionRange_bounds (lo hi : Nat) :
    ∀ (l : List FileMeta) (acc : Option (Nat × Nat)),
      (∀ g ∈ l, lo ≤ g.smallest ∧ g.largest ≤ hi) →
      (∀ a b, acc = some (a, b) → lo ≤ a ∧ b ≤ hi) →
      ∀ a b,
        l.foldl
          (fun acc f =>
            match acc with
            | none => some (f.smallest, f.largest)
            | some (lo, hi) => some (min lo f.smallest, max hi f.largest)) acc
          = some (a, b) →
        lo ≤ a ∧ b ≤ hi := by
  intro l
  induction l with
  | nil =>
    intro acc hl hacc a b hfold
    exact hacc a b hfold
  | cons f rest ih =>
    intro acc hl hacc a b hfold
    rw [List.foldl_cons] at hfold
    have hf := hl f (List.mem_cons_self f rest)
    refine ih _ (fun g hg => hl g (List.mem_cons_of_mem f hg)) ?_ a b hfold
    intro a' b' hacc'
    cases acc with
    | none =>
      simp only [Option.some.injEq, Prod.mk.injEq] at hacc'
      obtain ⟨h1, h2⟩ := hacc'
      subst h1
      subst h2
      exact hf
    | some p =>
      obtain ⟨p1, p2⟩ := p
      simp only [Option.some.injEq, Prod.mk.injEq] at hacc'
      obtain ⟨h1, h2⟩ := hacc'
      subst h1
      subst h2
      exact ⟨le_min (hacc p1 p2 rfl).1 hf.1, max_le (hacc p1 p2 rfl).2 hf.2⟩

/-- Overlapping a subinterval implies overlapping the enclosing interval. -/
theorem rangesOverlap_mono (a b c d s l : Nat)
    (h : rangesOverlap c d s l = true) (hac : a ≤ c) (hdb : d ≤ b) :
    rangesOverlap a b s l = true := by
  rw [rangesOverlap] at *
  simp only [Bool.not_eq_true', Bool.or_eq_false_iff, decide_eq_false_iff_not, not_lt] at *
  omega

/-- The merged range of an identity set that selects no file is empty. -/
theorem mergedRange_nil (files : List FileMeta) (s : Finset Nat)
    (h : ∀ f ∈ files, f.number ∉ s) : mergedRange files s = none := by
  rw [mergedRange]
  have : files.filter (fun f => decide (f.number ∈ s)) = [] := by
    rw [List.filter_eq_nil_iff]
    intro f hf
    simpa using h f hf
  rw [this]
  rfl

/-- A seed found by the priority scan is a real file of the level and is not
being compacted. -/
theorem priScan_some (files : List FileMeta) (pri : List Nat) :
    ∀ (fuel cpi si : Nat) (s : FileMeta), priScan files pri cpi fuel = some (si, s) →
      files.get? si = some s ∧ s.being_compacted = false := by
  intro fuel
  induction fuel with
  | zero => intro cpi si s h; exact absurd h (by rw [priScan]; simp)
  | succ fuel ih =>
    intro cpi si s h
    rw [priScan] at h
    cases hp : pri.get? cpi with
    | none => rw [hp] at h; exact absurd h (by simp)
    | some index =>
      rw [hp] at h
      dsimp only at h
      cases hf : files.get? index with
      | none => rw [hf] at h; exact ih _ si s h
      | some f =>
        rw [hf] at h
        dsimp only at h
        by_cases hbc : f.being_compacted = true
        · rw [if_pos hbc] at h
          exact ih _ si s h
        · rw [if_neg hbc] at h
          obtain ⟨h1, h2⟩ := Prod.mk.injEq _ _ _ _ ▸ Option.some.inj h
          subst h1
          subst h2
          exact ⟨hf, Bool.not_eq_true _ ▸ hbc⟩

/-- The largest-file fold: a returned file came from the list (or was the
start value), it beats the start size, and it is at least as large as every
non-being-compacted file of the list. -/
theorem largestNonCompacted_aux :
    ∀ (l : List FileMeta) (acc : Option FileMeta) (g : FileMeta),
      l.foldl
        (fun acc f =>
          if f.being_compacted then acc
          else if accSize acc < f.size then some f
          else acc) acc = some g →
      ((g ∈ l ∧ g.being_compacted = false) ∨ acc = some g) ∧
      accSize acc ≤ g.size ∧
      (∀ f ∈ l, f.being_compacted = false → f.size ≤ g.size) := by
  intro l
  induction l with
  | nil =>
    intro acc g h
    rw [List.foldl_nil] at h
    refine ⟨Or.inr h, ?_, by simp⟩
    rw [h, accSize]
  | cons f rest ih =>
    intro acc g h
    rw [List.foldl_cons] at h
    by_cases hbc : f.being_compacted = true
    · rw [if_pos hbc] at h
      obtain ⟨p1, p2, p3⟩ := ih acc g h
      refine ⟨p1.imp (fun q => ⟨List.mem_cons_of_mem f q.1, q.2⟩) id, p2, ?_⟩
      intro f' hf' hbf'
      rcases List.mem_cons.mp hf' with rfl | hf''
      · rw [hbf'] at hbc; exact absurd hbc (by simp)
      · exact p3 f' hf'' hbf'
    · rw [if_neg hbc] at h
      by_cases hlt : accSize acc < f.size
      · rw [if_pos hlt] at h
        obtain ⟨p1, p2, p3⟩ := ih (some f) g h
        have hfg : f.size ≤ g.size := p2
        constructor
        · rcases p1 with q | q
          · exact Or.inl ⟨List.mem_cons_of_mem f q.1, q.2⟩
          · have : f = g := Option.some.inj q
            subst this
            exact Or.inl ⟨List.mem_cons_self _ _, Bool.not_eq_true _ ▸ hbc⟩
        · refine ⟨le_of_lt (lt_of_lt_of_le hlt hfg), ?_⟩
          intro f' hf' hbf'
          rcases List.mem_cons.mp hf' with rfl | hf''
          · exact hfg
          · exact p3 f' hf'' hbf'
      · rw [if_neg hlt] at h
        obtain ⟨p1, p2, p3⟩ := ih acc g h
        refine ⟨p1.imp (fun q => ⟨List.mem_cons_of_mem f q.1, q.2⟩) id, p2, ?_⟩
        intro f' hf' hbf'
        rcases List.mem_cons.mp hf' with rfl | hf''
        · exact le_trans (not_lt.mp hlt) p2
        · exact p3 f' hf'' hbf'

/-- A largest-file fallback seed is a real non-being-compacted file of the
level of maximal size among the non-being-compacted files. -/
theorem largestNonCompacted_spec (files : List FileMeta) (g : FileMeta)
    (h : largestNonCompacted files = some g) :
    g ∈ files ∧ g.being_compacted = false ∧
      ∀ f ∈ files, f.being_compacted = false → f.size ≤ g.size := by
  rw [largestNonCompacted] at h
  obtain ⟨p1, _, p3⟩ := largestNonCompacted_aux files none g h
  rcases p1 with q | q
  · exact ⟨q.1, q.2, p3⟩
  · exact absurd q (by simp)

/-- Closure of a launched expansion: at the fixed point, no non-being-compacted
file of the level outside the collected set overlaps the merged range of the
collected set (file numbers assumed unique in the level). -/
theorem expandLoop_closure (files : List FileMeta)
    (hnodup : (files.map FileMeta.number).Nodup) (st0 : ExpState)
    (hsub : st0.included ⊆ Finset.range files.length)
    (hA0 : ∀ j ∈ st0.included, ∀ g, files.get? j = some g → g.number ∈ st0.ids)
    (hB0 : ∀ g ∈ files, g.number ∈ st0.ids → st0.lo ≤ g.smallest ∧ g.largest ≤ st0.hi)
    (lo hi : Nat)
    (hmr : mergedRange files (expandLoop files (files.length + 1) st0).ids = some (lo, hi)) :
    ∀ f ∈ files, f.number ∉ (expandLoop files (files.length + 1) st0).ids →
      f.being_compacted = false → rangesOverlap lo hi f.smallest f.largest = false := by
  intro f hfmem hfout hfbc
  obtain ⟨hsubF, hfix⟩ :=
    expandLoop_fix files (files.length + 1) st0 hsub (by omega)
  obtain ⟨hA, hB⟩ := expandLoop_inv files hnodup (files.length + 1) st0 hA0 hB0
  obtain ⟨i, hget⟩ := List.mem_iff_get?.mp hfmem
  have hilt : i < files.length := (List.get?_eq_some.mp hget).1
  have hii : i ∉ (expandLoop files (files.length + 1) st0).included := by
    intro hcon
    exact hfout (hA i hcon f hget)
  have hstep := hfix i (List.mem_range.mpr hilt)
  have hrange : (expandLoop files (files.length + 1) st0).lo ≤ lo ∧
      hi ≤ (expandLoop files (files.length + 1) st0).hi := by
    rw [mergedRange, unionRange] at hmr
    refine unionRange_bounds _ _ _ none ?_ (by simp) lo hi hmr
    intro g hg
    have hg' := List.mem_filter.mp hg
    exact hB g hg'.1 (by simpa using hg'.2)
  cases hb : rangesOverlap lo hi f.smallest f.largest with
  | false => rfl
  | true =>
    exfalso
    have hov : rangesOverlap (expandLoop files (files.length + 1) st0).lo
        (expandLoop files (files.length + 1) st0).hi f.smallest f.largest = true :=
      rangesOverlap_mono _ _ _ _ _ _ hb hrange.1 hrange.2
    rw [expandStep, if_neg hii, hget] at hstep
    dsimp only at hstep
    rw [if_neg (by rw [hfbc]; simp), if_pos hov] at hstep
    have hinc := congrArg ExpState.included hstep
    dsimp only at hinc
    exact hii (Finset.insert_eq_self.mp hinc)

/-- C2 (amended): for every level, the set S returned by the clean-cut
expansion (GetLevelCompactionFiles) is closed under overlap relative to the
non-being-compacted files: merging the key ranges of the files of S into one
interval [min,max], no non-being-compacted file of that level outside S has a
key range intersecting [min,max] (file numbers assumed unique within the
level). Being-compacted files may overlap the interval, and the closure does
not extend to the per-level set accumulated by refinement rounds. -/
theorem cleancut_closure (vs : VStorage) (level : Nat)
    (hnodup : ((vs.levels level).map FileMeta.number).Nodup) (lo hi : Nat)
    (hmr : mergedRange (vs.levels level) (GetLevelCompactionFiles vs level) = some (lo, hi)) :
    ∀ f ∈ vs.levels level, f.number ∉ GetLevelCompactionFiles vs level →
      f.being_compacted = false → rangesOverlap lo hi f.smallest f.largest = false := by
  by_cases h1 : (vs.levels level).isEmpty
  · intro f hf
    rw [List.isEmpty_iff] at h1
    rw [h1] at hf
    exact absurd hf (by simp)
  · by_cases h2 : level = 0
    · have hS : GetLevelCompactionFiles vs level = ∅ := by
        rw [GetLevelCompactionFiles, if_neg h1, if_pos h2]
      rw [hS, mergedRange_nil _ _ (fun g _ => Finset.not_mem_empty _)] at hmr
      exact absurd hmr (by simp)
    · by_cases h3 : (vs.files_by_compaction_pri level).isEmpty
      · have hS : GetLevelCompactionFiles vs level = ∅ := by
          rw [GetLevelCompactionFiles, if_neg h1, if_neg h2, if_pos h3]
        rw [hS, mergedRange_nil _ _ (fun g _ => Finset.not_mem_empty _)] at hmr
        exact absurd hmr (by simp)
      · cases hscan : priScan (vs.levels level) (vs.files_by_compaction_pri level)
            (if (vs.files_by_compaction_pri level).length ≤ vs.next_compaction_index level
             then 0 else vs.next_compaction_index level)
            (vs.files_by_compaction_pri level).length with
        | some p =>
          obtain ⟨si, s⟩ := p
          have hS : GetLevelCompactionFiles vs level =
              (expandLoop (vs.levels level) ((vs.levels level).length + 1)
                ⟨{s.number}, {si}, s.smallest, s.largest⟩).ids := by
            rw [GetLevelCompactionFiles, if_neg h1, if_neg h2, if_neg h3, hscan]
          obtain ⟨hgets, hbcs⟩ := priScan_some _ _ _ _ _ _ hscan
          have hsmem : s ∈ vs.levels level := List.get?_mem hgets
          rw [hS] at hmr ⊢
          refine expandLoop_closure _ hnodup _ ?_ ?_ ?_ lo hi hmr
          · intro j hj
            have hj' : j = si := by simpa using hj
            subst hj'
            exact Finset.mem_range.mpr (List.get?_eq_some.mp hgets).1
          · intro j hj g hgj
            have hj' : j = si := by simpa using hj
            subst hj'
            have : g = s := by rw [hgets] at hgj; exact (Option.some.inj hgj).symm
            subst this
            exact Finset.mem_singleton_self _
          · intro g hgm hgid
            have hgid' : g.number = s.number := by simpa using hgid
            have : g = s := List.inj_on_of_nodup_map hnodup hgm hsmem hgid'
            subst this
            exact ⟨le_refl _, le_refl _⟩
        | none =>
          cases hlar : largestNonCompacted (vs.levels level) with
          | some g =>
            have hS : GetLevelCompactionFiles vs level =
                (expandLoop (vs.levels level) ((vs.levels level).length + 1)
                  ⟨{g.number}, ∅, g.smallest, g.largest⟩).ids := by
              rw [GetLevelCompactionFiles, if_neg h1, if_neg h2, if_neg h3, hscan, hlar]
            obtain ⟨hgm, hgbc, _⟩ := largestNonCompacted_spec _ _ hlar
            rw [hS] at hmr ⊢
            refine expandLoop_closure _ hnodup _ ?_ ?_ ?_ lo hi hmr
            · intro j hj
              exact absurd hj (by simp)
            · intro j hj
              exact absurd hj (by simp)
            · intro g' hg'm hg'id
              have hg'id' : g'.number = g.number := by simpa using hg'id
              have : g' = g := List.inj_on_of_nodup_map hnodup hg'm hgm hg'id'
              subst this
              exact ⟨le_refl _, le_refl _⟩
          | none =>
            have hS : GetLevelCompactionFiles vs level = ∅ := by
              rw [GetLevelCompactionFiles, if_neg h1, if_neg h2, if_neg h3, hscan, hlar]
            rw [hS, mergedRange_nil _ _ (fun g _ => Finset.not_mem_empty _)] at hmr
            exact absurd hmr (by simp)

/-- C2 witness: the closure theorem instantiated on vsC2w; file 804, outside
the returned set {801, 802, 803}, does not overlap the merged range [2, 6]. -/
theorem cleancut_closure_witness :
    rangesOverlap 2 6 100 101 = false := by
  have h := cleancut_closure vsC2w 1 (by decide) 2 6 (by decide)
    ⟨804, 100, 101, 10, false⟩ (by decide) (by decide) (by decide)
  exact h

/-- C2 counterexample: the claim as stated fails twice. On vsC2a the
being-compacted file 402 lies outside the returned set {401} yet overlaps its
merged range [0, 10]. On vsC2b the set accumulated after one refinement round
is {501, 502, 503} with merged range [0, 40], while the free file 504 at
[38, 45] overlaps it and stays outside (the refinement round expands only
against the seed range [20, 30], not to a fixed point). -/
theorem cleancut_closure_counterexample :
    (GetLevelCompactionFiles vsC2a 1 = {401} ∧
     mergedRange (vsC2a.levels 1) {401} = some (0, 10) ∧
     (∃ f ∈ vsC2a.levels 1, f.number = 402 ∧ 402 ∉ ({401} : Finset Nat) ∧
        rangesOverlap 0 10 f.smallest f.largest = true)) ∧
    (refineLoop vsC2b 1 3 (CalculateNewScore vsC2b 1 (GetLevelCompactionFiles vsC2b 1))
        (GetLevelCompactionFiles vsC2b 1) = {501, 502, 503} ∧
     mergedRange (vsC2b.levels 1) {501, 502, 503} = some (0, 40) ∧
     (∃ f ∈ vsC2b.levels 1, f.number = 504 ∧ f.being_compacted = false ∧
        504 ∉ ({501, 502, 503} : Finset Nat) ∧
        rangesOverlap 0 40 f.smallest f.largest = true)) := by
  refine ⟨⟨by decide, by decide, by decide⟩, ?_, by decide, by decide⟩
  rw [show GetLevelCompactionFiles vsC2b 1 = {501} from by decide]
  have h1 : CalculateNewScore vsC2b 1 {501} = 3/2 := by
    rw [CalculateNewScore, show removedSize vsC2b 1 {501} = 10 from by decide]
    norm_num [vsC2b]
  have h2 : CalculateNewScore vsC2b 1 ({501} ∪ {502, 503}) = 1/2 := by
    rw [CalculateNewScore, show removedSize vsC2b 1 ({501} ∪ {502, 503}) = 30 from by decide]
    norm_num [vsC2b]
  rw [h1, show (3:Nat) = 2 + 1 from rfl,
    refineLoop_step vsC2b 1 2 (3/2) {501} {502, 503} (by norm_num) (by decide) (by decide),
    h2, show (2:Nat) = 1 + 1 from rfl, refineLoop_stop vsC2b 1 1 (1/2) _ (by norm_num)]
  decide

/-- C4 (amended): for a level >= 1 with files and a priority order, the seed
of the clean-cut selection is the file reached from
PriorityOrder(level)[NextCompactionIndex(level)] (the stale cursor clamped to
0), skipping out-of-range entries and files being compacted, and that seed
belongs to the returned set; when the scan over all priority positions finds
nothing, the largest non-being-compacted file is used as seed instead, and
only when that also fails is the empty set returned. -/
theorem seed_selection (vs : VStorage) (level : Nat) (h1 : 1 ≤ level)
    (h2 : (vs.levels level).isEmpty = false)
    (h3 : (vs.files_by_compaction_pri level).isEmpty = false) :
    (∀ si s,
      priScan (vs.levels level) (vs.files_by_compaction_pri level)
        (if (vs.files_by_compaction_pri level).length ≤ vs.next_compaction_index level
         then 0 else vs.next_compaction_index level)
        (vs.files_by_compaction_pri level).length = some (si, s) →
      (vs.levels level).get? si = some s ∧ s.being_compacted = false ∧
        s.number ∈ GetLevelCompactionFiles vs level) ∧
    (priScan (vs.levels level) (vs.files_by_compaction_pri level)
        (if (vs.files_by_compaction_pri level).length ≤ vs.next_compaction_index level
         then 0 else vs.next_compaction_index level)
        (vs.files_by_compaction_pri level).length = none →
      (largestNonCompacted (vs.levels level) = none →
        GetLevelCompactionFiles vs level = ∅) ∧
      (∀ g, largestNonCompacted (vs.levels level) = some g →
        g ∈ vs.levels level ∧ g.being_compacted = false ∧
        (∀ f ∈ vs.levels level, f.being_compacted = false → f.size ≤ g.size) ∧
        g.number ∈ GetLevelCompactionFiles vs level)) := by
  have hne : ¬ (vs.levels level).isEmpty = true := by simp [h2]
  have hnz : ¬ level = 0 := by omega
  have hpne : ¬ (vs.files_by_compaction_pri level).isEmpty = true := by simp [h3]
  constructor
  · intro si s hscan
    obtain ⟨hget, hbc⟩ := priScan_some _ _ _ _ _ _ hscan
    refine ⟨hget, hbc, ?_⟩
    have hS : GetLevelCompactionFiles vs level =
        (expandLoop (vs.levels level) ((vs.levels level).length + 1)
          ⟨{s.number}, {si}, s.smallest, s.largest⟩).ids := by
      rw [GetLevelCompactionFiles, if_neg hne, if_neg hnz, if_neg hpne, hscan]
    rw [hS]
    exact expandLoop_ids_mono _ _ _ (Finset.mem_singleton_self _)
  · intro hscan
    constructor
    · intro hlar
      rw [GetLevelCompactionFiles, if_neg hne, if_neg hnz, if_neg hpne, hscan, hlar]
    · intro g hlar
      obtain ⟨hgm, hgbc, hmax⟩ := largestNonCompacted_spec _ _ hlar
      refine ⟨hgm, hgbc, hmax, ?_⟩
      have hS : GetLevelCompactionFiles vs level =
          (expandLoop (vs.levels level) ((vs.levels level).length + 1)
            ⟨{g.number}, ∅, g.smallest, g.largest⟩).ids := by
        rw [GetLevelCompactionFiles, if_neg hne, if_neg hnz, if_neg hpne, hscan, hlar]
      rw [hS]
      exact expandLoop_ids_mono _ _ _ (Finset.mem_singleton_self _)

/-- C4 counterexample: on vsC4 the scan over all priority positions finds no
seed (the only position points at a being-compacted file), yet the operation
returns {100} through the largest-file fallback instead of the empty set the
claim requires. -/
theorem seed_selection_counterexample :
    priScan (vsC4.levels 1) (vsC4.files_by_compaction_pri 1)
      (if (vsC4.files_by_compaction_pri 1).length ≤ vsC4.next_compaction_index 1
       then 0 else vsC4.next_compaction_index 1)
      (vsC4.files_by_compaction_pri 1).length = none ∧
    GetLevelCompactionFiles vsC4 1 = {100} ∧ ({100} : Finset Nat) ≠ ∅ := by
  refine ⟨by decide, by decide, by decide⟩

/-- C4 witness: the amended statement instantiated on vsC4, whose fallback
seed 100 is in the returned set. -/
theorem seed_selection_witness : 100 ∈ GetLevelCompactionFiles vsC4 1 := by
  have h := ((seed_selection vsC4 1 (by decide) (by decide) (by decide)).2 (by decide)).2
    ⟨100, 0, 1, 5, false⟩ (by decide)
  exact h.2.2.2

/-- A found refinement seed is the file at the first index, counted from the
offset, whose identity is not excluded; every earlier file is excluded. -/
theorem firstNonExcludedAux_some (excluded : Finset Nat) :
    ∀ (l : List FileMeta) (i0 si : Nat) (s : FileMeta),
      firstNonExcludedAux excluded l i0 = some (si, s) →
      i0 ≤ si ∧ l.get? (si - i0) = some s ∧ s.number ∉ excluded ∧
        ∀ j, j < si - i0 → ∀ f, l.get? j = some f → f.number ∈ excluded := by
  intro l
  induction l with
  | nil =>
    intro i0 si s h
    exact absurd h (by rw [firstNonExcludedAux]; simp)
  | cons f rest ih =>
    intro i0 si s h
    rw [firstNonExcludedAux] at h
    by_cases hx : f.number ∈ excluded
    · rw [if_pos hx] at h
      obtain ⟨hle, hget, hnx, hmin⟩ := ih (i0 + 1) si s h
      refine ⟨by omega, ?_, hnx, ?_⟩
      · have heq : si - i0 = (si - (i0 + 1)) + 1 := by omega
        rw [heq]
        simpa using hget
      · intro j hj g hgj
        cases j with
        | zero =>
          have hfg : f = g := by simpa using hgj
          subst hfg
          exact hx
        | succ j' =>
          have hj' : j' < si - (i0 + 1) := by omega
          exact hmin j' hj' g (by simpa using hgj)
    · rw [if_neg hx] at h
      obtain ⟨h1, h2⟩ := Prod.mk.injEq _ _ _ _ ▸ Option.some.inj h
      subst h1
      subst h2
      exact ⟨le_refl _, by simp, hx, fun j hj g hg => absurd hj (by omega)⟩

/-- The refinement seed search fails exactly when every file is excluded. -/
theorem firstNonExcludedAux_none (excluded : Finset Nat) :
    ∀ (l : List FileMeta) (i0 : Nat),
      firstNonExcludedAux excluded l i0 = none ↔ ∀ f ∈ l, f.number ∈ excluded := by
  intro l
  induction l with
  | nil => intro i0; rw [firstNonExcludedAux]; simp
  | cons f rest ih =>
    intro i0
    rw [firstNonExcludedAux]
    by_cases hx : f.number ∈ excluded
    · rw [if_pos hx, ih]
      constructor
      · intro h g hg
        rcases List.mem_cons.mp hg with rfl | hg'
        · exact hx
        · exact h g hg'
      · intro h g hg
        exact h g (List.mem_cons_of_mem f hg)
    · rw [if_neg hx]
      constructor
      · intro h
        exact absurd h (by simp)
      · intro h
        exact absurd (h f (List.mem_cons_self f rest)) hx

/-- Membership in an insert-if fold over a list. -/
theorem foldl_insert_mem {α : Type} (p : α → Prop) [DecidablePred p] (g : α → Nat) :
    ∀ (l : List α) (init : Finset Nat) (n : Nat),
      n ∈ l.foldl (fun acc x => if p x then insert (g x) acc else acc) init ↔
        n ∈ init ∨ ∃ x ∈ l, p x ∧ g x = n := by
  intro l
  induction l with
  | nil => intro init n; simp
  | cons x rest ih =>
    intro init n
    rw [List.foldl_cons]
    by_cases hp : p x
    · rw [if_pos hp, ih]
      simp only [Finset.mem_insert, List.mem_cons]
      constructor
      · rintro ((h | h) | ⟨y, hy, hpy, hgy⟩)
        · exact Or.inr ⟨x, Or.inl rfl, hp, h.symm⟩
        · exact Or.inl h
        · exact Or.inr ⟨y, Or.inr hy, hpy, hgy⟩
      · rintro (h | ⟨y, (rfl | hy), hpy, hgy⟩)
        · exact Or.inl (Or.inr h)
        · exact Or.inl (Or.inl hgy.symm)
        · exact Or.inr ⟨y, hy, hpy, hgy⟩
    · rw [if_neg hp, ih]
      simp only [List.mem_cons]
      constructor
      · rintro (h | ⟨y, hy, hpy, hgy⟩)
        · exact Or.inl h
        · exact Or.inr ⟨y, Or.inr hy, hpy, hgy⟩
      · rintro (h | ⟨y, (rfl | hy), hpy, hgy⟩)
        · exact Or.inl h
        · exact absurd hpy hp
        · exact Or.inr ⟨y, hy, hpy, hgy⟩

/-- The refinement loop performs at most fuel rounds, each merging in exactly
one call to GetNextCompactionFilesFrom on the accumulated set. -/
theorem refineLoop_iterate (vs : VStorage) (level : Nat) :
    ∀ (fuel : Nat) (s : ℚ) (acc : Finset Nat), ∃ k ≤ fuel,
      refineLoop vs level fuel s acc =
        (fun a => a ∪ GetNextCompactionFilesFrom vs level a)^[k] acc := by
  intro fuel
  induction fuel with
  | zero => intro s acc; exact ⟨0, le_refl _, rfl⟩
  | succ fuel ih =>
    intro s acc
    by_cases hs : s ≤ 1
    · exact ⟨0, by omega, refineLoop_stop vs level fuel s acc hs⟩
    · by_cases he : GetNextCompactionFilesFrom vs level acc = ∅
      · exact ⟨0, by omega, refineLoop_empty vs level fuel s acc hs he⟩
      · obtain ⟨k, hk, heq⟩ := ih
          (CalculateNewScore vs level (acc ∪ GetNextCompactionFilesFrom vs level acc))
          (acc ∪ GetNextCompactionFilesFrom vs level acc)
        refine ⟨k + 1, by omega, ?_⟩
        rw [refineLoop_step vs level fuel s acc _ hs rfl he, heq,
          Function.iterate_succ_apply]

/-- C5 (amended): each refinement round calls GetNextCompactionFilesFrom: it
seeds from the first file of the level in index order whose identity is not
in the accumulated excluded set (regardless of being_compacted), and returns
the seed plus the non-excluded same-level files overlapping the seed range (a
single pass against the seed range, not a fixed point) plus the non-excluded
next-level files overlapping the seed range; if no seed exists the round is
empty; the loop runs at most 3 rounds, each merging one such call into the
accumulated set, stopping early when the score falls to 1.0 or below or the
round is empty. -/
theorem nextfiles_spec (vs : VStorage) (level : Nat) (excluded : Finset Nat) :
    (firstNonExcludedAux excluded (vs.levels level) 0 = none →
      GetNextCompactionFilesFrom vs level excluded = ∅) ∧
    (∀ si s, firstNonExcludedAux excluded (vs.levels level) 0 = some (si, s) →
      (vs.levels level).get? si = some s ∧ s.number ∉ excluded ∧
      (∀ j, j < si → ∀ f, (vs.levels level).get? j = some f → f.number ∈ excluded) ∧
      (∀ n, n ∈ GetNextCompactionFilesFrom vs level excluded ↔
        (n = s.number ∨
         (∃ i f, (vs.levels level).get? i = some f ∧ i ≠ si ∧ f.number ∉ excluded ∧
            rangesOverlap s.smallest s.largest f.smallest f.largest = true ∧ f.number = n) ∨
         (level + 1 < vs.num_levels ∧ ∃ f ∈ vs.levels (level + 1), f.number ∉ excluded ∧
            rangesOverlap s.smallest s.largest f.smallest f.largest = true ∧
            f.number = n)))) ∧
    (∀ s0 acc, ∃ k ≤ 3, refineLoop vs level 3 s0 acc =
      (fun a => a ∪ GetNextCompactionFilesFrom vs level a)^[k] acc) := by
  refine ⟨fun hnone => ?_, fun si s hseed => ?_, refineLoop_iterate vs level 3⟩
  · by_cases hemp : (vs.levels level).isEmpty
    · rw [GetNextCompactionFilesFrom, if_pos hemp]
    · rw [GetNextCompactionFilesFrom, if_neg hemp, hnone]
  · have hspec := firstNonExcludedAux_some excluded (vs.levels level) 0 si s hseed
    rw [Nat.sub_zero] at hspec
    obtain ⟨_, hget, hnx, hmin⟩ := hspec
    have hemp : ¬ (vs.levels level).isEmpty = true := by
      intro hcon
      rw [List.isEmpty_iff] at hcon
      rw [hcon] at hget
      exact absurd hget (by simp)
    refine ⟨hget, hnx, fun j hj f hf => hmin j hj f hf, fun n => ?_⟩
    rw [GetNextCompactionFilesFrom, if_neg hemp, hseed]
    dsimp only
    by_cases hlt : level + 1 < vs.num_levels
    · rw [if_pos hlt, foldl_insert_mem, foldl_insert_mem]
      simp only [Finset.mem_singleton]
      constructor
      · rintro ((h | ⟨⟨i, f⟩, hmem, ⟨hne2, hnx2, hov⟩, hgn⟩) | ⟨f, hfm, ⟨hnx2, hov⟩, hgn⟩)
        · exact Or.inl h
        · exact Or.inr (Or.inl ⟨i, f, List.mem_enum_iff_get?.mp hmem, hne2, hnx2, hov, hgn⟩)
        · exact Or.inr (Or.inr ⟨hlt, f, hfm, hnx2, hov, hgn⟩)
      · rintro (h | ⟨i, f, hget2, hne2, hnx2, hov, hgn⟩ | ⟨_, f, hfm, hnx2, hov, hgn⟩)
        · exact Or.inl (Or.inl h)
        · exact Or.inl (Or.inr
            ⟨(i, f), List.mem_enum_iff_get?.mpr hget2, ⟨hne2, hnx2, hov⟩, hgn⟩)
        · exact Or.inr ⟨f, hfm, ⟨hnx2, hov⟩, hgn⟩
    · rw [if_neg hlt, foldl_insert_mem]
      simp only [Finset.mem_singleton]
      constructor
      · rintro (h | ⟨⟨i, f⟩, hmem, ⟨hne2, hnx2, hov⟩, hgn⟩)
        · exact Or.inl h
        · exact Or.inr (Or.inl ⟨i, f, List.mem_enum_iff_get?.mp hmem, hne2, hnx2, hov, hgn⟩)
      · rintro (h | ⟨i, f, hget2, hne2, hnx2, hov, hgn⟩ | ⟨hlt2, _⟩)
        · exact Or.inl h
        · exact Or.inr ⟨(i, f), List.mem_enum_iff_get?.mpr hget2, ⟨hne2, hnx2, hov⟩, hgn⟩
        · exact absurd hlt2 hlt

/-- C5 counterexample: on vsC5, after the clean cut {301} leaves the score
above 1.0, the refinement round returns {302}, seeded from the first
remaining file 302; the procedure the claim describes (seed from the largest
remaining file, fixed-point expansion) would return {303}. On vsC5b the
round even seeds from the being-compacted file 311, which the claim says is
skipped. -/
theorem nextfiles_counterexample :
    (GetLevelCompactionFiles vsC5 1 = {301} ∧ 1 < CalculateNewScore vsC5 1 {301} ∧
     GetNextCompactionFilesFrom vsC5 1 {301} = {302} ∧
     claimRefineAdditional vsC5 1 {301} = {303} ∧ ({302} : Finset Nat) ≠ {303}) ∧
    (GetNextCompactionFilesFrom vsC5b 1 {999} = {311} ∧
     claimRefineAdditional vsC5b 1 {999} = {312} ∧
     (∃ f ∈ vsC5b.levels 1, f.number = 311 ∧ f.being_compacted = true)) := by
  refine ⟨⟨by decide, ?_, by decide, by decide, by decide⟩, by decide, by decide, by decide⟩
  rw [CalculateNewScore, show removedSize vsC5 1 {301} = 10 from by decide]
  norm_num [vsC5]

/-- C5 witness: the round description instantiated on vsC5 with the
accumulated set {301}: the seed 302 is in the returned additional set. -/
theorem nextfiles_spec_witness :
    302 ∈ GetNextCompactionFilesFrom vsC5 1 {301} := by
  have h := ((nextfiles_spec vsC5 1 {301}).2.1 1 ⟨302, 20, 30, 10, false⟩ (by decide)).2.2.2 302
  exact h.mpr (Or.inl rfl)
